import Mathlib

/-!
Verification of the merlin-cli core (registry, router, command builder,
validators, plugin hooks) against its natural-language specification.

The TypeScript sources are shallowly embedded: each Lean definition mirrors
one function of the repository (file and symbol named in its doc comment).
JavaScript objects used as string-keyed maps are embedded as insertion-ordered
association lists; JavaScript runtime values flowing through option/argument
maps are embedded as the inductive `JVal`; fallible code returns `Except`.
The host primitive `Number(string)` is not repository code, so it is taken as
a parameter `numParse : String → Option Int` (`none` standing for `NaN`) and
all theorems quantify over it.
-/

namespace MerlinCLI

/-- A JavaScript runtime value as it appears in option maps, argument maps and
validator inputs: a string, a boolean, a (non-NaN) number, `NaN`, or an array
of strings (the only arrays produced, by comma-splitting). -/
inductive JVal where
  | str (s : String)
  | bool (b : Bool)
  | num (n : Int)
  | nan
  | arr (l : List String)
  deriving DecidableEq, Repr

/-- Insertion-ordered association-list lookup: `obj[key]` on a JS object. -/
def alookup {α : Type} : List (String × α) → String → Option α
  | [], _ => none
  | (k, v) :: rest, key => if k = key then some v else alookup rest key

/-- Insertion-ordered association-list update: `obj[key] = v` on a JS object
(overwrites in place if the key exists, else appends). -/
def aset {α : Type} : List (String × α) → String → α → List (String × α)
  | [], key, v => [(key, v)]
  | (k, w) :: rest, key, v =>
      if k = key then (k, v) :: rest else (k, w) :: aset rest key v

/-- `key in obj` on a JS object. -/
def amem {α : Type} (m : List (String × α)) (key : String) : Bool :=
  (alookup m key).isSome

/-! ## Registry (src/core/registry.ts)

`ServiceRegistry` holds two string-keyed maps, `services` (eager instances)
and `factories`.  Since key insertion order never matters here, both maps are
embedded as functions `String → Option _`.  A factory is a Lean function
`Unit → V`; operations additionally report the list of keys whose factory
they invoked, so that "the factory is never invoked" is an observable fact. -/

/-- A token is compared by its `key` only (src/core/registry.ts, `Token`). -/
structure Token where
  key : String

/-- The two maps of `ServiceRegistry` (src/core/registry.ts). -/
structure ServiceRegistry (V : Type) where
  services : String → Option V
  factories : String → Option (Unit → V)

/-- `createRegistry()`: both maps empty. -/
def ServiceRegistry.empty (V : Type) : ServiceRegistry V :=
  ⟨fun _ => none, fun _ => none⟩

/-- `ServiceRegistry.register(token, service)`: store an eager instance under
the token's key. -/
def ServiceRegistry.register {V : Type} (st : ServiceRegistry V)
    (tok : Token) (v : V) : ServiceRegistry V :=
  { st with services := fun k => if k = tok.key then some v else st.services k }

/-- `ServiceRegistry.registerFactory(token, factory)`: store a factory under
the token's key without invoking it. -/
def ServiceRegistry.registerFactory {V : Type} (st : ServiceRegistry V)
    (tok : Token) (f : Unit → V) : ServiceRegistry V :=
  { st with factories := fun k => if k = tok.key then some f else st.factories k }

/-- Result of `ServiceRegistry.get`: the returned value or thrown error, the
registry state afterwards, and the keys whose factory was invoked. -/
structure GetOutcome (V : Type) where
  result : Except String V
  state : ServiceRegistry V
  invoked : List String

/-- `ServiceRegistry.get(token)` (src/core/registry.ts): return the cached
instance if present; else invoke the factory, cache its result into
`services`, and return it; else throw `Service '<key>' not found`. -/
def ServiceRegistry.get {V : Type} (st : ServiceRegistry V) (tok : Token) :
    GetOutcome V :=
  match st.services tok.key with
  | some v => ⟨.ok v, st, []⟩
  | none =>
    match st.factories tok.key with
    | some f =>
      let v := f ()
      ⟨.ok v,
       { st with services := fun k => if k = tok.key then some v else st.services k },
       [tok.key]⟩
    | none => ⟨.error ("Service '" ++ tok.key ++ "' not found"), st, []⟩

/-- `ServiceRegistry.has(token)`: membership in either map; no factory is
invoked (the definition never applies a factory). -/
def ServiceRegistry.hasKey {V : Type} (st : ServiceRegistry V) (tok : Token) :
    Bool :=
  (st.services tok.key).isSome || (st.factories tok.key).isSome

/-! ## String helpers for the router's flag grammar

These embed the JavaScript string operations used by
`CommandRouter.parseOptions` (`startsWith`, `slice`, `split('=')` followed by
destructuring `[key, value]`) as structurally recursive Lean functions over
`String.data`. -/

/-- `s.startsWith('--')`. -/
def startsDashDash (s : String) : Bool :=
  match s.data with
  | c :: d :: _ => c = '-' && d = '-'
  | _ => false

/-- `s.startsWith('-')`. -/
def startsDash (s : String) : Bool :=
  match s.data with
  | c :: _ => c = '-'
  | _ => false

/-- `s.slice(n)` (drop the first `n` characters). -/
def strDrop (s : String) (n : Nat) : String :=
  ⟨s.data.drop n⟩

/-- `s.length`. -/
def strLen (s : String) : Nat :=
  s.data.length

/-- Characters up to the first `'='`, and, when an `'='` occurs, the rest. -/
def takeUntilEq : List Char → List Char × Option (List Char)
  | [] => ([], none)
  | c :: cs =>
    if c = '=' then ([], some cs)
    else
      let r := takeUntilEq cs
      (c :: r.1, r.2)

/-- `const [key, value] = s.split('=')`: `key` is the segment before the first
`'='`; `value` is `undefined` when `s` has no `'='`, and otherwise the segment
strictly between the first and the second `'='`. -/
def keyValOf (s : String) : String × Option String :=
  let r := takeUntilEq s.data
  match r.2 with
  | none => (⟨r.1⟩, none)
  | some rest => (⟨r.1⟩, some ⟨(takeUntilEq rest).1⟩)

/-! ## Router option parsing (src/commands/router.ts, `parseOptions`) -/

/-- The indexed `for` loop of `CommandRouter.parseOptions`, with the
look-ahead consumption `options[key] = args[++i]` expressed by recursing on
the tail past the consumed token. -/
def parseOptionsGo : List String → List (String × JVal) → List (String × JVal)
  | [], acc => acc
  | [arg], acc =>
    if startsDashDash arg then
      let kv := keyValOf (strDrop arg 2)
      match kv.2 with
      | some v => aset acc kv.1 (.str v)
      | none => aset acc kv.1 (.bool true)
    else if startsDash arg && strLen arg = 2 then
      aset acc (strDrop arg 1) (.bool true)
    else
      acc
  | arg :: next :: rest2, acc =>
    if startsDashDash arg then
      let kv := keyValOf (strDrop arg 2)
      match kv.2 with
      | some v => parseOptionsGo (next :: rest2) (aset acc kv.1 (.str v))
      | none =>
        if startsDash next then
          parseOptionsGo (next :: rest2) (aset acc kv.1 (.bool true))
        else
          parseOptionsGo rest2 (aset acc kv.1 (.str next))
    else if startsDash arg && strLen arg = 2 then
      let key := strDrop arg 1
      if startsDash next then
        parseOptionsGo (next :: rest2) (aset acc key (.bool true))
      else
        parseOptionsGo rest2 (aset acc key (.str next))
    else
      parseOptionsGo (next :: rest2) acc

/-- `CommandRouter.parseOptions(args)`. -/
def parseOptions (args : List String) : List (String × JVal) :=
  parseOptionsGo args []

/-! ## Command model (src/types/index.ts)

`Command` is embedded as a nested inductive: its `subcommands` field nests
further commands.  The `execute` handler is represented by its presence
(`hasExec`); what a handler does is outside every claim, while *whether and
when* it runs is observable through execution traces below. -/

/-- Outcome of a custom `validate` callback.  JavaScript distinguishes, in
this order, string results, falsy results, and (other) truthy results
(src/commands/middleware/validate-args.ts and validate-options.ts). -/
inductive ValidateResult where
  | truthy
  | falsy
  | msg (s : String)

/-- `ArgSpec.type : 'string' | 'number'`. -/
inductive ArgType where
  | str
  | number
  deriving DecidableEq

/-- `ArgSpec` (src/types/index.ts): `required?`, `type`, `validate?`. -/
structure ArgSpec where
  type : ArgType := .str
  required : Bool := false
  validate : Option (JVal → ValidateResult) := none

/-- `OptionSpec.type : 'string' | 'boolean' | 'number' | 'array'`. -/
inductive OptType where
  | str
  | boolean
  | number
  | array
  deriving DecidableEq

/-- `OptionSpec` (src/types/index.ts): `type`, `default?`, `required?`,
`validate?`. -/
structure OptionSpec where
  type : OptType := .str
  required : Bool := false
  default : Option JVal := none
  validate : Option (JVal → ValidateResult) := none

/-- `Command` (src/types/index.ts): name, aliases, positional-argument specs
(ordered), option specs, optional nested subcommand map, and presence of an
`execute` handler. -/
inductive Cmd where
  | mk (name : String) (aliases : List String)
       (args : List (String × ArgSpec)) (options : List (String × OptionSpec))
       (subcommands : Option (List (String × Cmd))) (hasExec : Bool)

/-- `command.name`. -/
def Cmd.name : Cmd → String
  | .mk n _ _ _ _ _ => n

/-- `command.aliases` (absent embedded as `[]`). -/
def Cmd.aliases : Cmd → List String
  | .mk _ a _ _ _ _ => a

/-- `command.args` (absent embedded as `[]`). -/
def Cmd.args : Cmd → List (String × ArgSpec)
  | .mk _ _ a _ _ _ => a

/-- `command.options` (absent embedded as `[]`). -/
def Cmd.options : Cmd → List (String × OptionSpec)
  | .mk _ _ _ o _ _ => o

/-- `command.subcommands`. -/
def Cmd.subcommands : Cmd → Option (List (String × Cmd))
  | .mk _ _ _ _ s _ => s

/-- Whether `command.execute` is defined. -/
def Cmd.hasExec : Cmd → Bool
  | .mk _ _ _ _ _ e => e

/-- `CommandDefinition = Command | (() => Promise<Command>)`: an entry of the
command table is either an eager command or a lazy loader.  The loader is a
zero-argument producer of a fixed command, so it is embedded as carrying the
command it will produce. -/
inductive CmdDef where
  | eager (c : Cmd)
  | lazy (c : Cmd)

/-- `if (typeof commandDef === 'function') commandDef = await commandDef()`:
the command a definition resolves to. -/
def CmdDef.resolve : CmdDef → Cmd
  | .eager c => c
  | .lazy c => c

/-! ## Router (src/commands/router.ts)

`CommandRouter.route` is embedded up to the point where it hands over to
`executeCommand`; the outcome of that resolution is the inductive
`Resolution`.  The `onBeforeRoute`/`onAfterRoute`/`onError` hooks are modelled
as absent (they only wrap the computation modelled here). -/

/-- `CustomRouterResult` (src/core/registry.ts). -/
structure CustomRouterResult where
  command : String
  args : List String
  skipNormalRouting : Bool := false

/-- The router's `routingOptions` constructor argument; `defaultHandler` is
represented by its presence (its invocation is recorded in the outcome). -/
structure RoutingOptions where
  customRouter : Option (List String → Option CustomRouterResult) := none
  defaultCommand : Option String := none
  defaultHandler : Bool := false

/-- How one call to `route(args)` resolves:
`execCmd c name remaining subPath opts` means control reached
`this.executeCommand(c, name, remaining, context, subPath)` with
`context.options = opts`; `defaultHandlerRun` means the configured default
handler was invoked with the given argument vector and parsed options;
`helpShown name` means the registered help command was invoked for `name`;
`routeError` is a thrown routing error. -/
inductive Resolution where
  | execCmd (c : Cmd) (name : String) (remaining : List String)
            (subPath : List String) (opts : List (String × JVal))
  | defaultHandlerRun (args : List String) (opts : List (String × JVal))
  | helpShown (name : String)
  | routeError (msg : String)

/-- `CommandRouter.findByAlias(alias)`: scan the command table in insertion
order; lazy entries are skipped (`typeof commandDef === 'function'`), eager
entries match when their alias list contains the name. -/
def findByAlias : List (String × CmdDef) → String → Option Cmd
  | [], _ => none
  | (_, .lazy _) :: rest, a => findByAlias rest a
  | (_, .eager c) :: rest, a =>
      if c.aliases.contains a then some c else findByAlias rest a

/-- Result of the name-resolution block of `route`: either a command
definition to continue with (with the possibly updated command name and
remaining arguments), or an already-determined outcome. -/
inductive ResolveStep where
  | proceed (d : CmdDef) (name : String) (remaining : List String)
  | handled (r : Resolution)

/-- The name-resolution block of `CommandRouter.route` (the `if (!commandDef)`
branch): static table first, then alias scan, then the configured default
command (adopting the *original* argument vector as remaining arguments, or
throwing when the configured name is itself absent), then the default handler
(invoked with the original argument vector and its parsed options), else the
`Unknown command` error. -/
def resolvePhase (commands : List (String × CmdDef)) (ropts : RoutingOptions)
    (commandName : String) (restArgs args : List String) : ResolveStep :=
  match alookup commands commandName with
  | some d => .proceed d commandName restArgs
  | none =>
    match findByAlias commands commandName with
    | some c => .proceed (.eager c) commandName restArgs
    | none =>
      match ropts.defaultCommand with
      | some dc =>
        match alookup commands dc with
        | some dd => .proceed dd dc args
        | none =>
          .handled (.routeError ("Default command '" ++ dc ++ "' not found"))
      | none =>
        if ropts.defaultHandler then
          .handled (.defaultHandlerRun args (parseOptions args))
        else
          .handled (.routeError ("Unknown command: " ++ commandName))

/-- The help block of `CommandRouter.route`, reached after the (possibly
descended) command is settled: when that command has subcommands, no handler,
and no non-flag argument remains, the registered help command (key `help`,
else `Help`) is invoked for the current command name; with no help command
registered — or outside the condition — control reaches `executeCommand`. -/
def routeFinish (commands : List (String × CmdDef)) (c2 : Cmd)
    (name : String) (rem : List String) (path : List String)
    (ctxOptions : List (String × JVal)) : Resolution :=
  if c2.subcommands.isSome && !c2.hasExec
      && (rem.filter (fun a => !startsDash a)).isEmpty then
    match alookup commands "help" with
    | some _ => .helpShown name
    | none =>
      match alookup commands "Help" with
      | some _ => .helpShown name
      | none => .execCmd c2 name rem path ctxOptions
  else
    .execCmd c2 name rem path ctxOptions

/-- The subcommand and help blocks of `CommandRouter.route`, entered with the
(lazily resolved) command: one level of descent by the first remaining
argument when it does not begin with `-`; the `Unknown subcommand` error when
that argument matches nothing and the parent has no handler; then the help
block. -/
def routeAfterResolve (commands : List (String × CmdDef)) (c : Cmd)
    (name : String) (remaining : List String)
    (ctxOptions : List (String × JVal)) : Resolution :=
  let step : Sum Resolution (Cmd × List String × List String) :=
    match c.subcommands, remaining with
    | some subs, p :: rest2 =>
      if startsDash p then .inr (c, [name], remaining)
      else
        match alookup subs p with
        | some sub => .inr (sub, [name, p], rest2)
        | none =>
          if c.hasExec then .inr (c, [name], remaining)
          else
            .inl (.routeError ("Unknown subcommand '" ++ p ++ "' for command '"
              ++ name ++ "'. Available subcommands: "
              ++ String.intercalate ", " (subs.map Prod.fst)))
    | _, _ => .inr (c, [name], remaining)
  match step with
  | .inl r => r
  | .inr (c2, path, rem) => routeFinish commands c2 name rem path ctxOptions

/-- The normal routing path of `route` after the custom-router step: name
resolution, then lazy resolution and the subcommand/help blocks. -/
def routeNormal (commands : List (String × CmdDef)) (ropts : RoutingOptions)
    (args : List String) (commandName : String) (restArgs : List String)
    (ctxOptions : List (String × JVal)) : Resolution :=
  match resolvePhase commands ropts commandName restArgs args with
  | .handled r => r
  | .proceed d name remaining =>
      routeAfterResolve commands d.resolve name remaining ctxOptions

/-- `CommandRouter.route(args)` up to the `executeCommand` hand-over: leading
token as command name (`'help'` when the vector is empty), remainder parsed
into options, custom-router override (its `skipNormalRouting` result executing
the named command directly when present in the table), then normal routing. -/
def routeResolve (commands : List (String × CmdDef)) (ropts : RoutingOptions)
    (args : List String) : Resolution :=
  let commandName := args.headD "help"
  let restArgs := args.tail
  let ctxOptions := parseOptions restArgs
  match ropts.customRouter with
  | some f =>
    match f args with
    | some r =>
      let ctxOptions2 := parseOptions r.args
      if r.skipNormalRouting then
        match alookup commands r.command with
        | some d =>
            .execCmd d.resolve r.command r.args [r.command] ctxOptions2
        | none => routeNormal commands ropts args r.command r.args ctxOptions2
      else
        routeNormal commands ropts args r.command r.args ctxOptions2
    | none => routeNormal commands ropts args commandName restArgs ctxOptions
  | none => routeNormal commands ropts args commandName restArgs ctxOptions

/-! ## Built-in validators
(src/commands/middleware/validate-args.ts, validate-options.ts)

`Number(x)` is the host primitive; it is taken as the parameter
`numParse : String → Option Int` (`none` = `NaN`) and lifted to `JVal` by
`jsNumberOf`. -/

/-- JavaScript truthiness of `providedArgs[i]` for a possibly-missing string:
`undefined` and `''` are falsy. -/
def jsFalsyStr : Option String → Bool
  | none => true
  | some s => s = ""

/-- `typeof v === 'number'` (`NaN` is a number). -/
def jsTypeofNumber : JVal → Bool
  | .num _ => true
  | .nan => true
  | _ => false

/-- `Number(v)` on an arbitrary value, given its behaviour on strings. -/
def jsNumberOf (numParse : String → Option Int) : JVal → Option Int
  | .str s => numParse s
  | .bool b => some (if b then 1 else 0)
  | .num n => some n
  | .nan => none
  | .arr [] => some 0
  | .arr [s] => numParse s
  | .arr _ => none

/-- The loop body state of `validateArgs`: accumulated `errors` and
`namedArgs`.  One iteration handles the `i`-th declared argument spec against
`providedArgs[i]`: the required check (with `continue`), then numeric
coercion (keeping the raw string on failure), then the custom validator run
on the coerced value, then `namedArgs[argName] = value`. -/
def vaGo (numParse : String → Option Int) (args : List String) :
    List (String × ArgSpec) → Nat → List String × List (String × JVal) →
    List String × List (String × JVal)
  | [], _, acc => acc
  | (name, spec) :: rest, i, (errs, named) =>
    let provided := args[i]?
    if spec.required && jsFalsyStr provided then
      vaGo numParse args rest (i + 1)
        (errs ++ ["Missing required argument: " ++ name], named)
    else
      match provided with
      | none => vaGo numParse args rest (i + 1) (errs, named)
      | some s =>
        let coerced : List String × JVal :=
          match spec.type with
          | .number =>
            match numParse s with
            | none => (["Argument " ++ name ++ " must be a number"], .str s)
            | some n => ([], .num n)
          | .str => ([], .str s)
        let vErrs : List String :=
          match spec.validate with
          | none => []
          | some v =>
            match v coerced.2 with
            | .truthy => []
            | .msg m => [m]
            | .falsy => ["Invalid value for argument " ++ name]
        vaGo numParse args rest (i + 1)
          (errs ++ coerced.1 ++ vErrs, aset named name coerced.2)

/-- `validateArgs` (src/commands/middleware/validate-args.ts): run the loop
over the declared specs; on any error throw the single combined
`Validation errors:` message, else return the `namedArgs` map. -/
def validateArgsRun (numParse : String → Option Int)
    (specs : List (String × ArgSpec)) (args : List String) :
    Except String (List (String × JVal)) :=
  let r := vaGo numParse args specs 0 ([], [])
  if r.1.isEmpty then .ok r.2
  else .error ("Validation errors:\n" ++ String.intercalate "\n" r.1)

/-- The required-option loop of `validateOptions`: one message per declared
required option absent from the provided map. -/
def voRequiredErrors : List (String × OptionSpec) → List (String × JVal) →
    List String
  | [], _ => []
  | (n, sp) :: rest, provided =>
    (if sp.required && !amem provided n
     then ["Missing required option: --" ++ n] else [])
      ++ voRequiredErrors rest provided

/-- The provided-options loop of `validateOptions`, error collection only:
per entry, the declared type check (`number`, `boolean`; `array` only
coerces) and the custom validator on the original value. -/
def voProvidedErrors (numParse : String → Option Int)
    (specs : List (String × OptionSpec)) :
    List (String × JVal) → List String
  | [] => []
  | (name, value) :: rest =>
    (match alookup specs name with
     | none => []
     | some sp =>
       (match sp.type with
        | .number =>
          if !jsTypeofNumber value && (jsNumberOf numParse value).isNone then
            ["Option --" ++ name ++ " must be a number"]
          else []
        | .boolean =>
          (match value with
           | .bool _ => []
           | .str s => if s = "true" || s = "false" then []
                       else ["Option --" ++ name ++ " must be a boolean"]
           | _ => ["Option --" ++ name ++ " must be a boolean"])
        | _ => [])
         ++ (match sp.validate with
             | none => []
             | some v =>
               match v value with
               | .truthy => []
               | .msg m => [m]
               | .falsy => ["Invalid value for option --" ++ name]))
      ++ voProvidedErrors numParse specs rest

/-- `value.split(',').map(v => v.trim())`. -/
def splitCommaTrim (s : String) : List String :=
  (s.splitOn ",").map String.trim

/-- The `array` coercion inside the provided-options loop: each provided
string entry declared as `array` is replaced by its comma-split array
(`context.options[name] = value.split(',').map(...)`). -/
def voArrCoerce (specs : List (String × OptionSpec))
    (provided : List (String × JVal)) : List (String × JVal) :=
  provided.foldl
    (fun m e =>
      match alookup specs e.1 with
      | some sp =>
        if sp.type = OptType.array then
          match e.2 with
          | .str s => aset m e.1 (.arr (splitCommaTrim s))
          | _ => m
        else m
      | none => m)
    provided

/-- The defaults loop of `validateOptions`: each declared default whose
option key is absent from the (evolving) map is appended. -/
def voDefaults (specs : List (String × OptionSpec))
    (m0 : List (String × JVal)) : List (String × JVal) :=
  specs.foldl
    (fun m nsp =>
      match nsp.2.default with
      | some d => if !amem m nsp.1 then aset m nsp.1 d else m
      | none => m)
    m0

/-- The type-conversion loop of `validateOptions`: every entry with a
declared `number` spec becomes `Number(value)`, every entry with a declared
`boolean` spec becomes `value === true || value === 'true'`. -/
def voConvert (numParse : String → Option Int)
    (specs : List (String × OptionSpec))
    (m1 : List (String × JVal)) : List (String × JVal) :=
  m1.foldl
    (fun m e =>
      match alookup specs e.1 with
      | none => m
      | some sp =>
        match sp.type with
        | .number =>
          aset m e.1
            (match jsNumberOf numParse e.2 with
             | some n => .num n
             | none => .nan)
        | .boolean =>
          aset m e.1 (.bool (e.2 = JVal.bool true || e.2 = JVal.str "true"))
        | _ => m)
    m1

/-- `validateOptions` (src/commands/middleware/validate-options.ts): collect
the missing-required and per-entry violations, throw them combined if any;
else apply array coercion, declared defaults, and number/boolean conversion
to the option map.  (In the source the array coercion happens inside the
error-collecting loop; it never affects which errors are collected, so it is
sequenced after the error check here.) -/
def validateOptionsRun (numParse : String → Option Int)
    (specs : List (String × OptionSpec)) (provided : List (String × JVal)) :
    Except String (List (String × JVal)) :=
  let errs := voRequiredErrors specs provided
      ++ voProvidedErrors numParse specs provided
  if errs.isEmpty then
    .ok (voConvert numParse specs (voDefaults specs (voArrCoerce specs provided)))
  else
    .error ("Validation errors:\n" ++ String.intercalate "\n" errs)

/-! ## Middleware chains

A middleware `(context, command, next)` is embedded as a function from the
context and command to one step outcome: transform the context and invoke
`next` (`proceed`), return without invoking `next` (`halt`), or throw
(`fail`).  Chain runners record, per middleware body that runs, its position
and the context it received, and `handlerRun` with the context the handler
received. -/

/-- `CommandContext` (src/types/index.ts), without the borrowed registry
reference (no modelled operation reads it). -/
structure CommandContext where
  args : List String
  namedArgs : Option (List (String × JVal)) := none
  options : List (String × JVal)
  deriving DecidableEq, Repr

/-- One middleware step: call `next` with the (possibly mutated) context,
return without calling `next`, or throw. -/
inductive MWStep where
  | proceed (ctx : CommandContext)
  | halt (ctx : CommandContext)
  | fail (msg : String)

/-- The `Middleware` function type. -/
def MW : Type := CommandContext → Cmd → MWStep

/-- Observable events of one execution. -/
inductive ExecEvent where
  | middlewareRun (idx : Nat) (ctx : CommandContext)
  | handlerRun (ctx : CommandContext)
  deriving DecidableEq, Repr

/-- The `next` recursion of `createCommand`'s inner chain
(src/commands/create-command.ts): middleware run in order; one that halts
stops the chain (later middleware never run) and the context it produced is
what the caller continues with.  The command handler is *not* part of this
recursion. -/
def runChainInner (cmd : Cmd) :
    List MW → Nat → CommandContext →
    Except String (CommandContext × List ExecEvent)
  | [], _, ctx => .ok (ctx, [])
  | m :: rest, idx, ctx =>
    match m ctx cmd with
    | .fail e => .error e
    | .halt c2 => .ok (c2, [.middlewareRun idx ctx])
    | .proceed c2 =>
      match runChainInner cmd rest (idx + 1) c2 with
      | .error e => .error e
      | .ok (cF, evs) => .ok (cF, .middlewareRun idx ctx :: evs)

/-- `validateArgs` as a middleware: validate `context.args` against the
command's argument specs; set `context.namedArgs` and continue, or throw. -/
def validateArgsMW (numParse : String → Option Int) : MW := fun ctx cmd =>
  match validateArgsRun numParse cmd.args ctx.args with
  | .error e => .fail e
  | .ok named => .proceed { ctx with namedArgs := some named }

/-- `validateOptions` as a middleware: validate and rewrite
`context.options`, or throw. -/
def validateOptionsMW (numParse : String → Option Int) : MW := fun ctx cmd =>
  match validateOptionsRun numParse cmd.options ctx.options with
  | .error e => .fail e
  | .ok opts2 => .proceed { ctx with options := opts2 }

/-- `logExecution` (src/commands/middleware/log-execution.ts): debug logging
only; the context passes through unchanged.  (The logger is assumed
registered, as `createCLI` always registers it.) -/
def logExecutionMW : MW := fun ctx _ => .proceed ctx

/-! ## Command builder (src/commands/create-command.ts) -/

/-- `CommandSpec` (src/types/index.ts) as consumed by `createCommand`:
`hasExec` records whether `spec.execute` is defined. -/
structure CommandSpec where
  name : String
  args : List (String × ArgSpec) := []
  options : List (String × OptionSpec) := []
  aliases : List String := []
  middleware : List MW := []
  hasExec : Bool := true

/-- The command object `createCommand` returns: spec metadata copied over, no
subcommands, and a wrapper `execute` that is always present (the spec's own
handler may still be absent, which the wrapper reports when reached). -/
def CommandSpec.toCmd (spec : CommandSpec) : Cmd :=
  .mk spec.name spec.aliases spec.args spec.options none true

/-- The wrapper `execute` produced by `createCommand`: build the chain
`spec.middleware ++ [validateArgs, validateOptions, logExecution]`, run it,
and afterwards — the chain having returned, whether it was fully traversed or
a middleware returned without calling `next` — throw if `spec.execute` is
absent, else run the user handler on the context the chain ended with. -/
def createCommandExecute (numParse : String → Option Int)
    (spec : CommandSpec) (ctx : CommandContext) :
    Except String (List ExecEvent) :=
  let mws := spec.middleware
      ++ [validateArgsMW numParse, validateOptionsMW numParse, logExecutionMW]
  match runChainInner spec.toCmd mws 0 ctx with
  | .error e => .error e
  | .ok (ctxF, evs) =>
    if spec.hasExec then .ok (evs ++ [.handlerRun ctxF])
    else .error ("Command '" ++ spec.name ++ "' has no execute function")

/-! ## Router execution (src/commands/router.ts, `executeCommand`) -/

/-- The command context built by `CommandRouter.executeCommand`:
`remainingArgs.filter(arg => !arg.startsWith('-'))` as positional arguments,
and the route context's parsed options. -/
def commandContextOf (remaining : List String)
    (ctxOpts : List (String × JVal)) : CommandContext :=
  { args := remaining.filter (fun a => !startsDash a),
    namedArgs := none,
    options := ctxOpts }

/-- The `next` recursion of `executeCommand`'s outer chain: middleware in
registration order, terminated by the resolved command's `execute` — or the
`requires a subcommand` error when the command has none.  A middleware that
returns without calling `next` ends the recursion before the terminal step,
so neither later middleware nor `execute` runs. -/
def runChainOuter (cmd : Cmd) (subPath : List String) :
    List MW → Nat → CommandContext → Except String (List ExecEvent)
  | [], _, ctx =>
    if cmd.hasExec then .ok [.handlerRun ctx]
    else .error ("Command '" ++ String.intercalate " " subPath
      ++ "' requires a subcommand")
  | m :: rest, idx, ctx =>
    match m ctx cmd with
    | .fail e => .error e
    | .halt _ => .ok [.middlewareRun idx ctx]
    | .proceed c2 =>
      match runChainOuter cmd subPath rest (idx + 1) c2 with
      | .error e => .error e
      | .ok evs => .ok (.middlewareRun idx ctx :: evs)

/-- `CommandRouter.executeCommand`: build the command context, apply the
optional `beforeExecute` transform (its returned `args`/`options` adopted,
the untransformed context kept when it returns `null`), then run the outer
middleware chain. -/
def executeCommandModel (mws : List MW)
    (beforeExec : Option (String → List String → List (String × JVal) →
      Option (List String × List (String × JVal))))
    (cmd : Cmd) (name : String) (remaining : List String)
    (ctxOpts : List (String × JVal)) (subPath : List String) :
    Except String (List ExecEvent) :=
  let ctx0 := commandContextOf remaining ctxOpts
  let ctx1 :=
    match beforeExec with
    | none => ctx0
    | some f =>
      match f name ctx0.args ctx0.options with
      | none => ctx0
      | some (a2, o2) => { args := a2, namedArgs := none, options := o2 }
  runChainOuter cmd subPath mws 0 ctx1

/-! ## CLI run loop and plugin hooks
(src/core/cli.ts `CLI.run`, src/plugins/integration.ts) -/

/-- A loaded plugin as the hook runners see it: its declared name and which
command hooks it defines. -/
structure PluginModel where
  name : String
  hasBeforeCommand : Bool := false
  hasAfterCommand : Bool := false

/-- Observable events of one `CLI.run`. -/
inductive RunEvent where
  | beforeHook (plugin : String) (commandName : String)
  | routed (args : List String)
  | afterHook (plugin : String) (commandName : String)
  | fatalLogged
  deriving DecidableEq, Repr

/-- `PluginIntegration.runBeforeCommandHooks(commandName)`: every loaded
plugin in load order; only plugins defining the hook fire it. -/
def runBeforeCommandHooks : List PluginModel → String → List RunEvent
  | [], _ => []
  | p :: rest, cn =>
    (if p.hasBeforeCommand then [.beforeHook p.name cn] else [])
      ++ runBeforeCommandHooks rest cn

/-- `PluginIntegration.runAfterCommandHooks(commandName)`. -/
def runAfterCommandHooks : List PluginModel → String → List RunEvent
  | [], _ => []
  | p :: rest, cn =>
    (if p.hasAfterCommand then [.afterHook p.name cn] else [])
      ++ runAfterCommandHooks rest cn

/-- `const commandName = args[0] || 'help'` (`''` is falsy). -/
def jsHeadOrHelp : List String → String
  | [] => "help"
  | a :: _ => if a = "" then "help" else a

/-- The dispatch section of `CLI.run(args)` with plugins present: all
before-command hooks, then `router.route(args)`, then — only when routing
completed without throwing — all after-command hooks; a thrown error is
caught and logged fatally instead (and no after hook runs).  `routeOk` stands
for whether `route` completed. -/
def cliRun (plugins : List PluginModel) (args : List String)
    (routeOk : Bool) : List RunEvent :=
  let commandName := jsHeadOrHelp args
  runBeforeCommandHooks plugins commandName
    ++ [.routed args]
    ++ (if routeOk then runAfterCommandHooks plugins commandName
        else [.fatalLogged])

/-! ## Derived notions used by the theorems -/

/-- The subcommand path recorded in an `execCmd` resolution. -/
def Resolution.pathOf : Resolution → Option (List String)
  | .execCmd _ _ _ p _ => some p
  | _ => none

/-- The context transform of one middleware (the context its continuation or
caller sees). -/
def mwProceedStep (cmd : Cmd) (m : MW) (ctx : CommandContext) :
    CommandContext :=
  match m ctx cmd with
  | .proceed c2 => c2
  | .halt c2 => c2
  | .fail _ => ctx

/-- The context after a list of middleware has run. -/
def mwFold (cmd : Cmd) (mws : List MW) (ctx : CommandContext) :
    CommandContext :=
  mws.foldl (fun c m => mwProceedStep cmd m c) ctx

/-- The events of a fully traversed middleware list: each body with the
context it receives. -/
def mwTrace (cmd : Cmd) : List MW → Nat → CommandContext → List ExecEvent
  | [], _, _ => []
  | m :: rest, idx, ctx =>
    .middlewareRun idx ctx :: mwTrace cmd rest (idx + 1) (mwProceedStep cmd m ctx)

/-- Claim side (C1): the alias scan as the claim states it — restricted to
the eagerly-defined (non-lazy) commands, first match by alias list. -/
def findByAliasEagerOnly (commands : List (String × CmdDef)) (a : String) :
    Option Cmd :=
  (commands.filterMap (fun kv =>
    match kv.2 with
    | .eager c => some c
    | .lazy _ => none)).find? (fun c => c.aliases.contains a)

/-- Claim side (C1): the resolution chain as the claim states it — static
mapping first; else the alias scan over eagerly-defined commands only; else
the configured default command name (a configured but unregistered name is an
error); else the configured default handler on the full original argument
vector and its parsed options; else Command-Not-Found. -/
def resolveChainSpec (commands : List (String × CmdDef))
    (ropts : RoutingOptions) (commandName : String)
    (restArgs args : List String) : ResolveStep :=
  match alookup commands commandName with
  | some d => .proceed d commandName restArgs
  | none =>
    match findByAliasEagerOnly commands commandName with
    | some c => .proceed (.eager c) commandName restArgs
    | none =>
      match ropts.defaultCommand with
      | some dc =>
        match alookup commands dc with
        | some dd => .proceed dd dc args
        | none =>
          .handled (.routeError ("Default command '" ++ dc ++ "' not found"))
      | none =>
        if ropts.defaultHandler then
          .handled (.defaultHandlerRun args (parseOptions args))
        else
          .handled (.routeError ("Unknown command: " ++ commandName))

/-- Claim side (C6): the value the validator of one positional argument
receives (the coerced value; the raw string when numeric coercion failed). -/
def argValueOf (numParse : String → Option Int) (spec : ArgSpec)
    (s : String) : JVal :=
  match spec.type with
  | .number =>
    match numParse s with
    | some n => .num n
    | none => .str s
  | .str => .str s

/-- Claim side (C6): the violations of one declared positional argument,
independent of every other position — a missing required value, a
type-coercion failure, and a custom-validator failure (a string result
contributes that string, any other falsy result the generic message, a
truthy result nothing). -/
def argViolationsAt (numParse : String → Option Int) (name : String)
    (spec : ArgSpec) (provided : Option String) : List String :=
  if spec.required && jsFalsyStr provided then
    ["Missing required argument: " ++ name]
  else
    match provided with
    | none => []
    | some s =>
      (match spec.type with
       | .number =>
         if (numParse s).isNone then
           ["Argument " ++ name ++ " must be a number"]
         else []
       | .str => [])
        ++ (match spec.validate with
            | none => []
            | some v =>
              match v (argValueOf numParse spec s) with
              | .truthy => []
              | .msg m => [m]
              | .falsy => ["Invalid value for argument " ++ name])

/-- Claim side (C6): all positional violations, collected across all
positions. -/
def argViolations (numParse : String → Option Int) (args : List String) :
    List (String × ArgSpec) → Nat → List String
  | [], _ => []
  | (n, sp) :: rest, i =>
    argViolationsAt numParse n sp args[i]?
      ++ argViolations numParse args rest (i + 1)

/-- Claim side (C6): the missing-required-option violations. -/
def optMissing (specs : List (String × OptionSpec))
    (provided : List (String × JVal)) : List String :=
  specs.filterMap (fun nsp =>
    if nsp.2.required && !amem provided nsp.1 then
      some ("Missing required option: --" ++ nsp.1)
    else none)

/-- Claim side (C6): the violations of one provided option, independent of
every other entry — the declared type check and the custom validator (same
string/falsy/truthy rule as for arguments). -/
def optViolationsAt (numParse : String → Option Int)
    (specs : List (String × OptionSpec)) (name : String) (value : JVal) :
    List String :=
  match alookup specs name with
  | none => []
  | some sp =>
    (match sp.type with
     | .number =>
       if !jsTypeofNumber value && (jsNumberOf numParse value).isNone then
         ["Option --" ++ name ++ " must be a number"]
       else []
     | .boolean =>
       (match value with
        | .bool _ => []
        | .str s =>
          if s = "true" || s = "false" then []
          else ["Option --" ++ name ++ " must be a boolean"]
        | _ => ["Option --" ++ name ++ " must be a boolean"])
     | _ => [])
      ++ (match sp.validate with
          | none => []
          | some v =>
            match v value with
            | .truthy => []
            | .msg m => [m]
            | .falsy => ["Invalid value for option --" ++ name])

/-- Claim side (C6): all option violations — every missing required option,
then the violations of every provided entry. -/
def optViolations (numParse : String → Option Int)
    (specs : List (String × OptionSpec))
    (provided : List (String × JVal)) : List String :=
  optMissing specs provided
    ++ (provided.map (fun e => optViolationsAt numParse specs e.1 e.2)).flatten

/-! ## Theorems -/

/-- C7: for every token, `register(token, v)` followed by `get(token)`
returns `v` itself; with no instance registered for the key, the first `get`
after `registerFactory(token, f)` invokes `f` exactly once, caches the result
as an instance, and every subsequent `get` returns that same cached instance
invoking no factory; and when both an instance and a factory exist for the
key, `get` returns the instance and invokes no factory. -/
theorem registry_get_memoization {V : Type} (st : ServiceRegistry V)
    (tok : Token) (v : V) (f : Unit → V) :
    (((st.register tok v).get tok).result = .ok v
      ∧ ((st.register tok v).get tok).invoked = [])
    ∧ (st.services tok.key = none →
        let st1 := st.registerFactory tok f
        ((st1.get tok).result = .ok (f ())
          ∧ (st1.get tok).invoked = [tok.key]
          ∧ (st1.get tok).state.services tok.key = some (f ()))
        ∧ (((st1.get tok).state.get tok).result = .ok (f ())
          ∧ ((st1.get tok).state.get tok).invoked = []))
    ∧ (st.services tok.key = some v →
        (st.get tok).result = .ok v ∧ (st.get tok).invoked = []) := by
  refine ⟨?_, ?_, ?_⟩
  · simp [ServiceRegistry.register, ServiceRegistry.get]
  · intro hs
    simp [ServiceRegistry.registerFactory, ServiceRegistry.get, hs]
  · intro hs
    simp [ServiceRegistry.get, hs]

/-- Witness for C7 at a concrete registry: an eager instance, a memoized
factory, and an instance shadowing a factory. -/
theorem registry_get_memoization_witness :
    let e := ServiceRegistry.empty Nat
    let tok : Token := ⟨"svc"⟩
    let f : Unit → Nat := fun _ => 41
    (((e.register tok 7).get tok).result = .ok 7
      ∧ ((e.register tok 7).get tok).invoked = [])
    ∧ ((((e.registerFactory tok f).get tok).result = .ok 41
        ∧ ((e.registerFactory tok f).get tok).invoked = ["svc"]
        ∧ ((e.registerFactory tok f).get tok).state.services "svc" = some 41)
      ∧ ((((e.registerFactory tok f).get tok).state.get tok).result = .ok 41
        ∧ (((e.registerFactory tok f).get tok).state.get tok).invoked = []))
    ∧ ((((e.registerFactory tok f).register tok 7).get tok).result = .ok 7
      ∧ (((e.registerFactory tok f).register tok 7).get tok).invoked = []) := by
  refine ⟨(registry_get_memoization (ServiceRegistry.empty Nat) ⟨"svc"⟩ 7
      (fun _ => 41)).1,
    ?_, ?_⟩
  · exact (registry_get_memoization (ServiceRegistry.empty Nat) ⟨"svc"⟩ 7
      (fun _ => 41)).2.1 rfl
  · exact (registry_get_memoization
      (((ServiceRegistry.empty Nat).registerFactory ⟨"svc"⟩
          (fun _ => 41)).register ⟨"svc"⟩ 7)
      ⟨"svc"⟩ 7 (fun _ => 41)).2.2
      (by simp [ServiceRegistry.register, ServiceRegistry.registerFactory])

/-- C8: for every token whose key has neither an instance nor a factory,
`get` throws the `Service '<key>' not found` condition and `has` reports
`false`; and `has` on a factory-registered token reports `true` purely from
the map membership — its definition inspects `isSome` of the two maps and has
no access to invoking the factory. -/
theorem registry_not_found (V : Type) (st : ServiceRegistry V) (tok : Token) :
    (st.services tok.key = none → st.factories tok.key = none →
      (st.get tok).result
          = .error ("Service '" ++ tok.key ++ "' not found")
        ∧ st.hasKey tok = false)
    ∧ (∀ f : Unit → V, st.factories tok.key = some f →
        st.hasKey tok = true) := by
  constructor
  · intro hs hf
    simp [ServiceRegistry.get, ServiceRegistry.hasKey, hs, hf]
  · intro f hf
    simp [ServiceRegistry.hasKey, hf]

/-- Witness for C8 at a concrete registry: an unregistered key, and a
factory-registered key visible to `has`. -/
theorem registry_not_found_witness :
    (((ServiceRegistry.empty Nat).get ⟨"gone"⟩).result
        = .error "Service 'gone' not found"
      ∧ (ServiceRegistry.empty Nat).hasKey ⟨"gone"⟩ = false)
    ∧ ((ServiceRegistry.empty Nat).registerFactory ⟨"fk"⟩ (fun _ => 3)
        |>.hasKey ⟨"fk"⟩) = true := by
  constructor
  · exact (registry_not_found Nat (ServiceRegistry.empty Nat) ⟨"gone"⟩).1
      rfl rfl
  · exact (registry_not_found Nat
      ((ServiceRegistry.empty Nat).registerFactory ⟨"fk"⟩ (fun _ => 3))
      ⟨"fk"⟩).2 (fun _ => 3) rfl

/-- C10: the positional arguments `executeCommand` places in the command
context are exactly the remaining arguments with every dash-prefixed token
removed; in particular the token `8080`, consumed as the value of
`--port 8080`, is not dash-prefixed, so it is bound as the option's value and
simultaneously kept as a positional argument. -/
theorem context_args_keep_consumed_values :
    (∀ (remaining : List String) (opts : List (String × JVal)),
      (commandContextOf remaining opts).args
        = remaining.filter (fun a => !startsDash a))
    ∧ parseOptions ["--port", "8080"] = [("port", JVal.str "8080")]
    ∧ (commandContextOf ["--port", "8080"]
        (parseOptions ["--port", "8080"])).args = ["8080"] := by
  exact ⟨fun _ _ => rfl, rfl, rfl⟩

lemma takeUntilEq_not_mem (l : List Char) (h : '=' ∉ l) :
    takeUntilEq l = (l, none) := by
  induction l with
  | nil => rfl
  | cons c cs ih =>
    have hc : ¬ c = '=' := fun hc => h (hc ▸ List.mem_cons_self c cs)
    have hcs : '=' ∉ cs := fun hm => h (List.mem_cons_of_mem c hm)
    simp [takeUntilEq, hc, ih hcs]

lemma takeUntilEq_append (l r : List Char) (h : '=' ∉ l) :
    takeUntilEq (l ++ '=' :: r) = (l, some r) := by
  induction l with
  | nil => simp [takeUntilEq]
  | cons c cs ih =>
    have hc : ¬ c = '=' := fun hc => h (hc ▸ List.mem_cons_self c cs)
    have hcs : '=' ∉ cs := fun hm => h (List.mem_cons_of_mem c hm)
    simp [takeUntilEq, hc, ih hcs]

/-- C2 counterexample: `--a=b=c` is `--name=value` with `name = a` and
`value = b=c`, yet the parser binds `a` to `"b"` — the segment between the
first and second `=` — not to `value` verbatim. -/
theorem parse_options_value_not_verbatim :
    "--a=b=c" = "--" ++ "a" ++ "=" ++ "b=c"
    ∧ parseOptions ["--a=b=c"] = [("a", JVal.str "b")]
    ∧ parseOptions ["--a=b=c"] ≠ [("a", JVal.str "b=c")] := by
  refine ⟨rfl, rfl, ?_⟩
  decide

/-- C2 amended: for every argument vector the router's option parser binds
`--name=value` to the segment of `value` before its first `=` — hence to
`value` verbatim whenever `value` contains no `=`; binds `--name value` to
the following token exactly when that token does not begin with `-`, and
otherwise binds `name` to boolean `true`; applies the same value-or-boolean
rule to `-x` (exactly one character after the dash); and does not parse any
other dash-prefixed token.  `["--port","8080"]` yields `{port:"8080"}`,
`["--force"]` yields `{force:true}`, `["--name=Bob","x"]` yields
`{name:"Bob"}`. -/
theorem parse_options_flag_grammar :
    (∀ (tok name value : String) (rest : List String)
        (acc : List (String × JVal)),
      tok.data = '-' :: '-' :: (name.data ++ '=' :: value.data) →
      '=' ∉ name.data →
      parseOptionsGo (tok :: rest) acc
        = parseOptionsGo rest
            (aset acc name (.str ⟨(takeUntilEq value.data).1⟩)))
    ∧ (∀ value : String, '=' ∉ value.data →
        (⟨(takeUntilEq value.data).1⟩ : String) = value)
    ∧ (∀ (tok name t : String) (ts : List String)
        (acc : List (String × JVal)),
      tok.data = '-' :: '-' :: name.data →
      '=' ∉ name.data →
      startsDash t = false →
      parseOptionsGo (tok :: t :: ts) acc
        = parseOptionsGo ts (aset acc name (.str t)))
    ∧ (∀ (tok name t : String) (ts : List String)
        (acc : List (String × JVal)),
      tok.data = '-' :: '-' :: name.data →
      '=' ∉ name.data →
      startsDash t = true →
      parseOptionsGo (tok :: t :: ts) acc
        = parseOptionsGo (t :: ts) (aset acc name (.bool true)))
    ∧ (∀ (tok name : String) (acc : List (String × JVal)),
      tok.data = '-' :: '-' :: name.data →
      '=' ∉ name.data →
      parseOptionsGo [tok] acc = aset acc name (.bool true))
    ∧ (∀ (tok : String) (c : Char) (t : String) (ts : List String)
        (acc : List (String × JVal)),
      tok.data = ['-', c] → ¬ c = '-' →
      parseOptionsGo (tok :: t :: ts) acc
        = (if startsDash t then
             parseOptionsGo (t :: ts) (aset acc ⟨[c]⟩ (.bool true))
           else parseOptionsGo ts (aset acc ⟨[c]⟩ (.str t))))
    ∧ (∀ (tok : String) (c : Char) (acc : List (String × JVal)),
      tok.data = ['-', c] → ¬ c = '-' →
      parseOptionsGo [tok] acc = aset acc ⟨[c]⟩ (.bool true))
    ∧ (∀ (tok : String) (c d : Char) (ds : List Char) (rest : List String)
        (acc : List (String × JVal)),
      tok.data = '-' :: c :: d :: ds → ¬ c = '-' →
      parseOptionsGo (tok :: rest) acc = parseOptionsGo rest acc)
    ∧ (∀ (tok : String) (rest : List String) (acc : List (String × JVal)),
      tok.data = ['-'] →
      parseOptionsGo (tok :: rest) acc = parseOptionsGo rest acc)
    ∧ parseOptions ["--port", "8080"] = [("port", JVal.str "8080")]
    ∧ parseOptions ["--force"] = [("force", JVal.bool true)]
    ∧ parseOptions ["--name=Bob", "x"] = [("name", JVal.str "Bob")] := by
  refine ⟨?_, ?_, ?_, ?_, ?_, ?_, ?_, ?_, ?_, rfl, rfl, rfl⟩
  · intro tok name value rest acc h hn
    cases rest with
    | nil =>
      simp [parseOptionsGo, startsDashDash, h, strDrop, keyValOf,
        takeUntilEq_append _ _ hn]
    | cons t ts =>
      simp [parseOptionsGo, startsDashDash, h, strDrop, keyValOf,
        takeUntilEq_append _ _ hn]
  · intro value hv
    simp [takeUntilEq_not_mem _ hv]
  · intro tok name t ts acc h hn ht
    simp [parseOptionsGo, startsDashDash, h, strDrop, keyValOf,
      takeUntilEq_not_mem _ hn, ht]
  · intro tok name t ts acc h hn ht
    simp [parseOptionsGo, startsDashDash, h, strDrop, keyValOf,
      takeUntilEq_not_mem _ hn, ht]
  · intro tok name acc h hn
    simp [parseOptionsGo, startsDashDash, h, strDrop, keyValOf,
      takeUntilEq_not_mem _ hn]
  · intro tok c t ts acc h hc
    simp [parseOptionsGo, startsDashDash, startsDash, h, hc, strDrop, strLen]
  · intro tok c acc h hc
    simp [parseOptionsGo, startsDashDash, startsDash, h, hc, strDrop, strLen]
  · intro tok c d ds rest acc h hc
    cases rest with
    | nil =>
      simp [parseOptionsGo, startsDashDash, startsDash, h, hc, strLen]
    | cons t ts =>
      simp [parseOptionsGo, startsDashDash, startsDash, h, hc, strLen]
  · intro tok rest acc h
    cases rest with
    | nil => simp [parseOptionsGo, startsDashDash, startsDash, h, strLen]
    | cons t ts => simp [parseOptionsGo, startsDashDash, startsDash, h, strLen]

/-- Witness for the amended C2 at concrete tokens: an `=`-carrying value, a
space-separated value, a bare long flag, a short flag followed by another
flag, and a skipped multi-character short token. -/
theorem parse_options_flag_grammar_witness :
    parseOptionsGo ["--a=b=c"] [] = [("a", JVal.str "b")]
    ∧ parseOptionsGo ["--port", "8080"] [] = [("port", JVal.str "8080")]
    ∧ parseOptionsGo ["--force"] [] = [("force", JVal.bool true)]
    ∧ parseOptionsGo ["-v", "-x"] []
        = [("v", JVal.bool true), ("x", JVal.bool true)]
    ∧ parseOptionsGo ["-abc"] [] = [] := by
  obtain ⟨h1, _, h3, _, h5, h6, _, h8, _, _, _, _⟩ := parse_options_flag_grammar
  refine ⟨?_, ?_, ?_, ?_, ?_⟩
  · exact (h1 "--a=b=c" "a" "b=c" [] [] rfl (by decide)).trans rfl
  · exact (h3 "--port" "port" "8080" [] [] rfl (by decide) rfl).trans rfl
  · exact (h5 "--force" "force" [] rfl (by decide)).trans rfl
  · exact (h6 "-v" 'v' "-x" [] [] rfl (by decide)).trans rfl
  · exact (h8 "-abc" 'a' 'b' ['c'] [] [] rfl (by decide)).trans rfl

lemma runBeforeCommandHooks_eq (l : List PluginModel) (cn : String) :
    runBeforeCommandHooks l cn
      = (l.filter (fun q => q.hasBeforeCommand)).map
          (fun q => RunEvent.beforeHook q.name cn) := by
  induction l with
  | nil => rfl
  | cons q rest ih =>
    by_cases hq : q.hasBeforeCommand <;>
      simp [runBeforeCommandHooks, hq, ih]

lemma runAfterCommandHooks_eq (l : List PluginModel) (cn : String) :
    runAfterCommandHooks l cn
      = (l.filter (fun q => q.hasAfterCommand)).map
          (fun q => RunEvent.afterHook q.name cn) := by
  induction l with
  | nil => rfl
  | cons q rest ih =>
    by_cases hq : q.hasAfterCommand <;>
      simp [runAfterCommandHooks, hq, ih]

lemma count_beforeHook_zero (cn x : String) (l : List PluginModel)
    (h : x ∉ l.map PluginModel.name) :
    ((l.filter (fun q => q.hasBeforeCommand)).map
        (fun q => RunEvent.beforeHook q.name cn)).count
      (RunEvent.beforeHook x cn) = 0 := by
  rw [List.count_eq_zero]
  intro hm
  rcases List.mem_map.mp hm with ⟨q, hq, he⟩
  have : q.name = x := by cases he; rfl
  exact h (List.mem_map.mpr ⟨q, List.mem_of_mem_filter hq, this⟩)

lemma count_afterHook_zero (cn x : String) (l : List PluginModel)
    (h : x ∉ l.map PluginModel.name) :
    ((l.filter (fun q => q.hasAfterCommand)).map
        (fun q => RunEvent.afterHook q.name cn)).count
      (RunEvent.afterHook x cn) = 0 := by
  rw [List.count_eq_zero]
  intro hm
  rcases List.mem_map.mp hm with ⟨q, hq, he⟩
  have : q.name = x := by cases he; rfl
  exact h (List.mem_map.mpr ⟨q, List.mem_of_mem_filter hq, this⟩)

lemma count_beforeHook_one (cn : String) (l : List PluginModel)
    (hn : (l.map PluginModel.name).Nodup) (p : PluginModel) (hp : p ∈ l)
    (hb : p.hasBeforeCommand = true) :
    ((l.filter (fun q => q.hasBeforeCommand)).map
        (fun q => RunEvent.beforeHook q.name cn)).count
      (RunEvent.beforeHook p.name cn) = 1 := by
  induction l with
  | nil => cases hp
  | cons q rest ih =>
    have hn2 : (q.name :: rest.map PluginModel.name).Nodup := by simpa using hn
    have hq : q.name ∉ rest.map PluginModel.name := (List.nodup_cons.mp hn2).1
    have hrest : (rest.map PluginModel.name).Nodup := (List.nodup_cons.mp hn2).2
    rcases List.mem_cons.mp hp with hpq | hpr
    · subst hpq
      simp only [List.filter_cons, hb, if_pos rfl]
      simp [List.count_cons, count_beforeHook_zero cn p.name rest hq]
    · have hne : q.name ≠ p.name := by
        intro he
        exact hq (he ▸ List.mem_map.mpr ⟨p, hpr, rfl⟩)
      by_cases hqb : q.hasBeforeCommand
      · simp only [List.filter_cons, hqb]
        simp [List.count_cons, hne, ih hrest hpr]
      · simp only [List.filter_cons, hqb]
        simp [ih hrest hpr]

lemma count_afterHook_one (cn : String) (l : List PluginModel)
    (hn : (l.map PluginModel.name).Nodup) (p : PluginModel) (hp : p ∈ l)
    (hb : p.hasAfterCommand = true) :
    ((l.filter (fun q => q.hasAfterCommand)).map
        (fun q => RunEvent.afterHook q.name cn)).count
      (RunEvent.afterHook p.name cn) = 1 := by
  induction l with
  | nil => cases hp
  | cons q rest ih =>
    have hn2 : (q.name :: rest.map PluginModel.name).Nodup := by simpa using hn
    have hq : q.name ∉ rest.map PluginModel.name := (List.nodup_cons.mp hn2).1
    have hrest : (rest.map PluginModel.name).Nodup := (List.nodup_cons.mp hn2).2
    rcases List.mem_cons.mp hp with hpq | hpr
    · subst hpq
      simp only [List.filter_cons, hb, if_pos rfl]
      simp [List.count_cons, count_afterHook_zero cn p.name rest hq]
    · have hne : q.name ≠ p.name := by
        intro he
        exact hq (he ▸ List.mem_map.mpr ⟨p, hpr, rfl⟩)
      by_cases hqb : q.hasAfterCommand
      · simp only [List.filter_cons, hqb]
        simp [List.count_cons, hne, ih hrest hpr]
      · simp only [List.filter_cons, hqb]
        simp [ih hrest hpr]

/-- C9: around every top-level dispatch with routing completing, the run loop
fires all loaded plugins' `beforeCommand` hooks in plugin-load order before
routing and all their `afterCommand` hooks in plugin-load order after
routing, regardless of which command the arguments name (the hook runners
never consult command ownership); with distinct plugin names each such hook
fires exactly once; and when routing throws, no `afterCommand` hook fires. -/
theorem plugin_hooks_once_per_dispatch (plugins : List PluginModel)
    (args : List String) :
    (cliRun plugins args true
      = (plugins.filter (fun q => q.hasBeforeCommand)).map
          (fun q => RunEvent.beforeHook q.name (jsHeadOrHelp args))
        ++ [.routed args]
        ++ (plugins.filter (fun q => q.hasAfterCommand)).map
            (fun q => RunEvent.afterHook q.name (jsHeadOrHelp args)))
    ∧ ((plugins.map PluginModel.name).Nodup →
        ∀ p ∈ plugins,
          (p.hasBeforeCommand = true →
            (cliRun plugins args true).count
              (RunEvent.beforeHook p.name (jsHeadOrHelp args)) = 1)
          ∧ (p.hasAfterCommand = true →
            (cliRun plugins args true).count
              (RunEvent.afterHook p.name (jsHeadOrHelp args)) = 1))
    ∧ (∀ (x cn : String), RunEvent.afterHook x cn ∉ cliRun plugins args false) := by
  refine ⟨?_, ?_, ?_⟩
  · simp [cliRun, runBeforeCommandHooks_eq, runAfterCommandHooks_eq]
  · intro hn p hp
    constructor
    · intro hb
      simp only [cliRun, runBeforeCommandHooks_eq, runAfterCommandHooks_eq,
        List.count_append, List.count_cons, List.count_nil]
      have h1 := count_beforeHook_one (jsHeadOrHelp args) plugins hn p hp hb
      have h2 : ((plugins.filter (fun q => q.hasAfterCommand)).map
          (fun q => RunEvent.afterHook q.name (jsHeadOrHelp args))).count
            (RunEvent.beforeHook p.name (jsHeadOrHelp args)) = 0 := by
        rw [List.count_eq_zero]
        intro hm
        rcases List.mem_map.mp hm with ⟨q, _, he⟩
        cases he
      simp [h1, h2]
    · intro hb
      simp only [cliRun, runBeforeCommandHooks_eq, runAfterCommandHooks_eq,
        List.count_append, List.count_cons, List.count_nil]
      have h1 := count_afterHook_one (jsHeadOrHelp args) plugins hn p hp hb
      have h2 : ((plugins.filter (fun q => q.hasBeforeCommand)).map
          (fun q => RunEvent.beforeHook q.name (jsHeadOrHelp args))).count
            (RunEvent.afterHook p.name (jsHeadOrHelp args)) = 0 := by
        rw [List.count_eq_zero]
        intro hm
        rcases List.mem_map.mp hm with ⟨q, _, he⟩
        cases he
      simp [h1, h2]
  · intro x cn hm
    simp only [cliRun, runBeforeCommandHooks_eq] at hm
    rcases List.mem_append.mp hm with h | h
    · rcases List.mem_append.mp h with h1 | h1
      · rcases List.mem_map.mp h1 with ⟨q, _, he⟩
        cases he
      · simp at h1
    · simp at h

/-- Witness for C9: two plugins around a dispatch of a command belonging to
neither. -/
theorem plugin_hooks_once_per_dispatch_witness :
    cliRun [⟨"alpha", true, true⟩, ⟨"beta", true, false⟩] ["deploy"] true
      = [.beforeHook "alpha" "deploy", .beforeHook "beta" "deploy",
         .routed ["deploy"], .afterHook "alpha" "deploy"]
    ∧ (cliRun [⟨"alpha", true, true⟩, ⟨"beta", true, false⟩]
        ["deploy"] true).count (.beforeHook "alpha" "deploy") = 1
    ∧ (cliRun [⟨"alpha", true, true⟩, ⟨"beta", true, false⟩]
        ["deploy"] true).count (.afterHook "alpha" "deploy") = 1 := by
  have h := plugin_hooks_once_per_dispatch
    [⟨"alpha", true, true⟩, ⟨"beta", true, false⟩] ["deploy"]
  refine ⟨h.1.trans rfl, ?_, ?_⟩
  · exact (h.2.1 (by decide) ⟨"alpha", true, true⟩ (by simp)).1 rfl
  · exact (h.2.1 (by decide) ⟨"alpha", true, true⟩ (by simp)).2 rfl

lemma runChainOuter_halted (cmd : Cmd) (subPath : List String) (m : MW)
    (post : List MW) (hm : ∀ c, ∃ c2, m c cmd = .halt c2) :
    ∀ (pre : List MW)
      (_ : ∀ q ∈ pre, ∀ c, ∃ c2, q c cmd = .proceed c2)
      (idx : Nat) (ctx : CommandContext),
      ∃ evs, runChainOuter cmd subPath (pre ++ m :: post) idx ctx = .ok evs
        ∧ evs.length = pre.length + 1
        ∧ ∀ e ∈ evs, ∃ i c, e = ExecEvent.middlewareRun i c
            ∧ i < idx + pre.length + 1 := by
  intro pre
  induction pre with
  | nil =>
    intro _ idx ctx
    obtain ⟨c2, hc⟩ := hm ctx
    refine ⟨[.middlewareRun idx ctx], ?_, rfl, ?_⟩
    · simp [runChainOuter, hc]
    · intro e he
      simp at he
      exact ⟨idx, ctx, he, by omega⟩
  | cons q pre2 ih =>
    intro hpre idx ctx
    obtain ⟨c2, hc⟩ := hpre q (List.mem_cons_self q pre2) ctx
    obtain ⟨evs, hrun, hlen, hbound⟩ :=
      ih (fun r hr => hpre r (List.mem_cons_of_mem q hr)) (idx + 1) c2
    refine ⟨.middlewareRun idx ctx :: evs, ?_, by simp [hlen], ?_⟩
    · simp [runChainOuter, hc, hrun]
    · intro e he
      rcases List.mem_cons.mp he with he | he
      · exact ⟨idx, ctx, he, by simp only [List.length_cons]; omega⟩
      · obtain ⟨i, c3, hec, hib⟩ := hbound e he
        exact ⟨i, c3, hec, by simp only [List.length_cons] at *; omega⟩

lemma runChainInner_halted (cmd : Cmd) (m : MW)
    (post : List MW) (hm : ∀ c, ∃ c2, m c cmd = .halt c2) :
    ∀ (pre : List MW)
      (_ : ∀ q ∈ pre, ∀ c, ∃ c2, q c cmd = .proceed c2)
      (idx : Nat) (ctx : CommandContext),
      ∃ cH evs,
        runChainInner cmd (pre ++ m :: post) idx ctx = .ok (cH, evs)
        ∧ evs.length = pre.length + 1
        ∧ ∀ e ∈ evs, ∃ i c, e = ExecEvent.middlewareRun i c
            ∧ i < idx + pre.length + 1 := by
  intro pre
  induction pre with
  | nil =>
    intro _ idx ctx
    obtain ⟨c2, hc⟩ := hm ctx
    refine ⟨c2, [.middlewareRun idx ctx], ?_, rfl, ?_⟩
    · simp [runChainInner, hc]
    · intro e he
      simp at he
      exact ⟨idx, ctx, he, by omega⟩
  | cons q pre2 ih =>
    intro hpre idx ctx
    obtain ⟨c2, hc⟩ := hpre q (List.mem_cons_self q pre2) ctx
    obtain ⟨cH, evs, hrun, hlen, hbound⟩ :=
      ih (fun r hr => hpre r (List.mem_cons_of_mem q hr)) (idx + 1) c2
    refine ⟨cH, .middlewareRun idx ctx :: evs, ?_, by simp [hlen], ?_⟩
    · simp [runChainInner, hc, hrun]
    · intro e he
      rcases List.mem_cons.mp he with he | he
      · exact ⟨idx, ctx, he, by simp only [List.length_cons]; omega⟩
      · obtain ⟨i, c3, hec, hib⟩ := hbound e he
        exact ⟨i, c3, hec, by simp only [List.length_cons] at *; omega⟩

/-- C5 counterexample: in the per-command inner chain, a middleware that
returns without invoking its continuation does *not* prevent the command
handler: `createCommand`'s wrapper invokes the user handler after the chain
returns, so the execution trace still ends with `handlerRun`. -/
theorem inner_halt_still_runs_handler :
    createCommandExecute (fun _ => none)
        { name := "c", middleware := [fun c _ => .halt c] }
        { args := [], options := [] }
      = .ok [.middlewareRun 0 { args := [], options := [] },
             .handlerRun { args := [], options := [] }]
    ∧ ExecEvent.handlerRun { args := [], options := [] }
        ∈ [ExecEvent.middlewareRun 0
            { args := [], namedArgs := none, options := [] },
           ExecEvent.handlerRun
            { args := [], namedArgs := none, options := [] }] := by
  exact ⟨rfl, by simp⟩

/-- C5 amended: in either chain, a middleware that returns without invoking
its continuation short-circuits the remainder of that middleware chain (no
later middleware body runs).  In the router's outer chain this also prevents
the resolved command's handler (`execute` is the chain's terminal step, never
reached).  In the per-command inner chain the builder invokes the user
handler after the chain returns regardless, so the handler still executes. -/
theorem middleware_halt_semantics (cmd : Cmd) (subPath : List String)
    (numParse : String → Option Int) (spec : CommandSpec)
    (ctx : CommandContext) (m : MW) (pre post : List MW)
    (hm : ∀ c, ∃ c2, m c cmd = .halt c2)
    (hm2 : ∀ c, ∃ c2, m c spec.toCmd = .halt c2)
    (hpre : ∀ q ∈ pre, ∀ c, ∃ c2, q c cmd = .proceed c2)
    (hpre2 : ∀ q ∈ pre, ∀ c, ∃ c2, q c spec.toCmd = .proceed c2)
    (hspec : spec.middleware = pre ++ m :: post)
    (hexec : spec.hasExec = true) :
    (∃ evs, runChainOuter cmd subPath (pre ++ m :: post) 0 ctx = .ok evs
      ∧ evs.length = pre.length + 1
      ∧ (∀ e ∈ evs, ∃ i c, e = ExecEvent.middlewareRun i c
          ∧ i < pre.length + 1)
      ∧ (∀ c, ExecEvent.handlerRun c ∉ evs))
    ∧ (∃ cH evs, createCommandExecute numParse spec ctx
        = .ok (evs ++ [.handlerRun cH])
      ∧ evs.length = pre.length + 1
      ∧ ∀ e ∈ evs, ∃ i c, e = ExecEvent.middlewareRun i c
          ∧ i < pre.length + 1) := by
  constructor
  · obtain ⟨evs, hrun, hlen, hbound⟩ :=
      runChainOuter_halted cmd subPath m post hm pre hpre 0 ctx
    refine ⟨evs, hrun, hlen, ?_, ?_⟩
    · intro e he
      obtain ⟨i, c3, hec, hib⟩ := hbound e he
      exact ⟨i, c3, hec, by omega⟩
    · intro c3 hc3
      obtain ⟨i, c4, hec, _⟩ := hbound _ hc3
      cases hec
  · obtain ⟨cH, evs, hrun, hlen, hbound⟩ :=
      runChainInner_halted spec.toCmd m
        (post ++ [validateArgsMW numParse, validateOptionsMW numParse,
          logExecutionMW])
        hm2 pre hpre2 0 ctx
    refine ⟨cH, evs, ?_, hlen, ?_⟩
    · have hassoc : (pre ++ m :: post)
          ++ [validateArgsMW numParse, validateOptionsMW numParse,
              logExecutionMW]
          = pre ++ m :: (post
            ++ [validateArgsMW numParse, validateOptionsMW numParse,
                logExecutionMW]) := by simp
      simp only [createCommandExecute, hspec, hassoc, hrun, hexec]
      simp
    · intro e he
      obtain ⟨i, c3, hec, hib⟩ := hbound e he
      exact ⟨i, c3, hec, by omega⟩

/-- Witness for the amended C5: a single halting middleware, outer and inner.
-/
theorem middleware_halt_semantics_witness :
    (∃ evs,
      runChainOuter (.mk "w" [] [] [] none true) ["w"]
          ([] ++ (fun c _ => MWStep.halt c) :: []) 0
          { args := [], options := [] } = .ok evs
        ∧ evs.length = 0 + 1
        ∧ (∀ e ∈ evs, ∃ i c, e = ExecEvent.middlewareRun i c ∧ i < 0 + 1)
        ∧ (∀ c, ExecEvent.handlerRun c ∉ evs))
    ∧ (∃ cH evs, createCommandExecute (fun _ => none)
          { name := "w", middleware := [fun c _ => MWStep.halt c] }
          { args := [], options := [] }
        = .ok (evs ++ [.handlerRun cH])
      ∧ evs.length = 0 + 1
      ∧ ∀ e ∈ evs, ∃ i c, e = ExecEvent.middlewareRun i c ∧ i < 0 + 1) := by
  exact middleware_halt_semantics (.mk "w" [] [] [] none true) ["w"]
    (fun _ => none)
    { name := "w", middleware := [fun c _ => MWStep.halt c] }
    { args := [], options := [] }
    (fun c _ => MWStep.halt c) [] []
    (fun c => ⟨c, rfl⟩) (fun c => ⟨c, rfl⟩)
    (fun q hq => absurd hq (List.not_mem_nil q))
    (fun q hq => absurd hq (List.not_mem_nil q))
    rfl rfl

lemma vaGo_errors (numParse : String → Option Int) (args : List String) :
    ∀ (specs : List (String × ArgSpec)) (i : Nat) (errs : List String)
      (named : List (String × JVal)),
      (vaGo numParse args specs i (errs, named)).1
        = errs ++ argViolations numParse args specs i := by
  intro specs
  induction specs with
  | nil => intro i errs named; simp [vaGo, argViolations]
  | cons nsp rest ih =>
    intro i errs named
    obtain ⟨n, sp⟩ := nsp
    by_cases hr1 : sp.required = true <;>
      cases hp : args[i]? with
      | none =>
        simp [vaGo, argViolations, argViolationsAt, jsFalsyStr, hr1, hp, ih]
      | some s =>
        by_cases hr2 : s = ""
        · subst hr2
          cases htype : sp.type <;> cases hnum : numParse "" <;>
            simp [vaGo, argViolations, argViolationsAt, argValueOf,
              jsFalsyStr, hr1, hp, htype, hnum, ih]
        · cases htype : sp.type <;> cases hnum : numParse s <;>
            simp [vaGo, argViolations, argViolationsAt, argValueOf,
              jsFalsyStr, hr1, hr2, hp, htype, hnum, ih]

lemma voRequiredErrors_eq (specs : List (String × OptionSpec))
    (provided : List (String × JVal)) :
    voRequiredErrors specs provided = optMissing specs provided := by
  induction specs with
  | nil => rfl
  | cons nsp rest ih =>
    by_cases hc1 : nsp.2.required = true <;>
      by_cases hc2 : amem provided nsp.1 = true <;>
        simp [voRequiredErrors, optMissing, List.filterMap_cons, hc1, hc2, ih]

lemma voProvidedErrors_eq (numParse : String → Option Int)
    (specs : List (String × OptionSpec)) :
    ∀ provided : List (String × JVal),
      voProvidedErrors numParse specs provided
        = (provided.map (fun e => optViolationsAt numParse specs e.1 e.2)).flatten := by
  intro provided
  induction provided with
  | nil => rfl
  | cons e rest ih =>
    simp only [voProvidedErrors, optViolationsAt, List.map_cons,
      List.flatten_cons, ih]

/-- C6: argument validation and option validation each collect all
violations — missing required values, type-coercion failures, and
custom-validator failures, a string-valued validator result contributing that
string and any other falsy result the generic message, as `argViolationsAt`
and `optViolationsAt` state — across *all* positions and options, and raise
them together as one combined multi-line `Validation errors:` message instead
of failing on the first violation. -/
theorem validators_collect_all_violations (numParse : String → Option Int)
    (aspecs : List (String × ArgSpec)) (args : List String)
    (ospecs : List (String × OptionSpec)) (provided : List (String × JVal)) :
    (validateArgsRun numParse aspecs args
      = if (argViolations numParse args aspecs 0).isEmpty
        then .ok (vaGo numParse args aspecs 0 ([], [])).2
        else .error ("Validation errors:\n"
          ++ String.intercalate "\n" (argViolations numParse args aspecs 0)))
    ∧ (validateOptionsRun numParse ospecs provided
      = if (optViolations numParse ospecs provided).isEmpty
        then .ok (voConvert numParse ospecs
            (voDefaults ospecs (voArrCoerce ospecs provided)))
        else .error ("Validation errors:\n"
          ++ String.intercalate "\n" (optViolations numParse ospecs provided))) := by
  constructor
  · have h := vaGo_errors numParse args aspecs 0 [] []
    simp only [validateArgsRun, h, List.nil_append]
  · simp only [validateOptionsRun, voRequiredErrors_eq, voProvidedErrors_eq,
      optViolations]

lemma runChainInner_append_proceed (cmd : Cmd) :
    ∀ (xs : List MW),
      (∀ m ∈ xs, ∀ c, ∃ c2, m c cmd = .proceed c2) →
      ∀ (ys : List MW) (idx : Nat) (ctx : CommandContext),
        runChainInner cmd (xs ++ ys) idx ctx
          = match runChainInner cmd ys (idx + xs.length) (mwFold cmd xs ctx) with
            | .error e => .error e
            | .ok (cF, evs) => .ok (cF, mwTrace cmd xs idx ctx ++ evs) := by
  intro xs
  induction xs with
  | nil =>
    intro _ ys idx ctx
    cases h : runChainInner cmd ys idx ctx with
    | error e => simp [mwFold, h]
    | ok r => cases r with
      | mk cF evs => simp [mwFold, mwTrace, h]
  | cons m xs2 ih =>
    intro hx ys idx ctx
    obtain ⟨c2, hc⟩ := hx m (List.mem_cons_self m xs2) ctx
    have hstep : mwProceedStep cmd m ctx = c2 := by
      simp [mwProceedStep, hc]
    have harith : idx + (m :: xs2).length = idx + 1 + xs2.length := by
      simp [List.length_cons]; omega
    simp only [List.cons_append, runChainInner, hc, List.append_eq]
    rw [ih (fun r hr => hx r (List.mem_cons_of_mem m hr)) ys (idx + 1) c2]
    simp only [mwFold, List.foldl_cons, hstep, mwTrace, harith]
    cases h : runChainInner cmd ys (idx + 1 + xs2.length)
        (List.foldl (fun c m => mwProceedStep cmd m c) c2 xs2) with
    | error e => simp
    | ok r => cases r with
      | mk cF evs => simp

/-- C4: the `execute` produced by `createCommand` runs, in this fixed order,
the middleware declared on the spec (each receiving the context as
transformed so far — the first one the raw untouched context), then built-in
argument validation, then built-in option validation, then built-in
diagnostic logging, then the user handler; the handler receives the context
with `namedArgs` as produced by argument validation and `options` as
validated, coerced and defaulted by option validation. -/
theorem createCommand_execute_order (numParse : String → Option Int)
    (spec : CommandSpec) (ctx : CommandContext)
    (named opts2 : List (String × JVal))
    (hmw : ∀ m ∈ spec.middleware, ∀ c, ∃ c2, m c spec.toCmd = .proceed c2)
    (hargs : validateArgsRun numParse spec.args
      (mwFold spec.toCmd spec.middleware ctx).args = .ok named)
    (hopts : validateOptionsRun numParse spec.options
      (mwFold spec.toCmd spec.middleware ctx).options = .ok opts2)
    (hexec : spec.hasExec = true) :
    createCommandExecute numParse spec ctx
      = .ok (mwTrace spec.toCmd spec.middleware 0 ctx
          ++ [.middlewareRun spec.middleware.length
                (mwFold spec.toCmd spec.middleware ctx),
              .middlewareRun (spec.middleware.length + 1)
                { mwFold spec.toCmd spec.middleware ctx with
                    namedArgs := some named },
              .middlewareRun (spec.middleware.length + 2)
                { mwFold spec.toCmd spec.middleware ctx with
                    namedArgs := some named, options := opts2 },
              .handlerRun
                { mwFold spec.toCmd spec.middleware ctx with
                    namedArgs := some named, options := opts2 }]) := by
  have h1 : runChainInner spec.toCmd
      [validateArgsMW numParse, validateOptionsMW numParse, logExecutionMW]
      (0 + spec.middleware.length) (mwFold spec.toCmd spec.middleware ctx)
      = .ok ({ mwFold spec.toCmd spec.middleware ctx with
                namedArgs := some named, options := opts2 },
             [.middlewareRun (0 + spec.middleware.length)
                (mwFold spec.toCmd spec.middleware ctx),
              .middlewareRun (0 + spec.middleware.length + 1)
                { mwFold spec.toCmd spec.middleware ctx with
                    namedArgs := some named },
              .middlewareRun (0 + spec.middleware.length + 2)
                { mwFold spec.toCmd spec.middleware ctx with
                    namedArgs := some named, options := opts2 }]) := by
    have hargs2 : validateArgsRun numParse spec.toCmd.args
        (mwFold spec.toCmd spec.middleware ctx).args = .ok named := by
      simpa [CommandSpec.toCmd, Cmd.args] using hargs
    have hopts2 : validateOptionsRun numParse spec.toCmd.options
        { mwFold spec.toCmd spec.middleware ctx with
            namedArgs := some named }.options = .ok opts2 := by
      simpa [CommandSpec.toCmd, Cmd.options] using hopts
    simp [runChainInner, validateArgsMW, validateOptionsMW, logExecutionMW,
      hargs2, hopts2]
  simp only [createCommandExecute,
    runChainInner_append_proceed spec.toCmd spec.middleware hmw _ 0 ctx, h1,
    hexec]
  simp


/-- Witness for C4: one pass-through spec middleware, a required string
argument, and a defaulted option. -/
theorem createCommand_execute_order_witness :
    createCommandExecute (fun _ => none)
        { name := "greet",
          args := [("who", { required := true })],
          options := [("p", { default := some (JVal.str "d") })],
          middleware := [fun c _ => MWStep.proceed c] }
        { args := ["Alice"], options := [] }
      = .ok [.middlewareRun 0 { args := ["Alice"], options := [] },
             .middlewareRun 1 { args := ["Alice"], options := [] },
             .middlewareRun 2
               { args := ["Alice"],
                 namedArgs := some [("who", JVal.str "Alice")],
                 options := [] },
             .middlewareRun 3
               { args := ["Alice"],
                 namedArgs := some [("who", JVal.str "Alice")],
                 options := [("p", JVal.str "d")] },
             .handlerRun
               { args := ["Alice"],
                 namedArgs := some [("who", JVal.str "Alice")],
                 options := [("p", JVal.str "d")] }] := by
  have h := createCommand_execute_order (fun _ => none)
    { name := "greet",
      args := [("who", { required := true })],
      options := [("p", { default := some (JVal.str "d") })],
      middleware := [fun c _ => MWStep.proceed c] }
    { args := ["Alice"], options := [] }
    [("who", JVal.str "Alice")] [("p", JVal.str "d")]
    (by
      intro m hm c
      simp only [List.mem_singleton] at hm
      subst hm
      exact ⟨c, rfl⟩)
    rfl rfl rfl
  exact h.trans rfl

lemma findByAlias_eq_eagerOnly (a : String) :
    ∀ commands : List (String × CmdDef),
      findByAlias commands a = findByAliasEagerOnly commands a := by
  intro commands
  induction commands with
  | nil => rfl
  | cons kv rest ih =>
    obtain ⟨k, d⟩ := kv
    cases d with
    | lazy c => simp [findByAlias, findByAliasEagerOnly, List.filterMap_cons, ih]
    | eager c =>
      by_cases hc : a ∈ c.aliases <;>
        simp [findByAlias, findByAliasEagerOnly, List.filterMap_cons,
          List.find?, hc, ih]

/-- C1: `route` resolves the leading token (`'help'` for an empty vector)
against the static command mapping first; if absent, by the alias scan, which
considers eagerly-defined (non-lazy) commands only, so a lazy command's
aliases are never matched; if still unresolved, it falls back to the
configured default command name (committing to it: a configured but
unregistered name is an error), then to the configured default handler,
invoked directly with the full original argument vector and its parsed
options and bypassing the rest of routing, and otherwise fails with the
Command-Not-Found error.  Stated as equality of the resolution block with the
chain `resolveChainSpec` written from the claim, plus the endpoint
behaviours, under no custom router being configured. -/
theorem route_resolution_priority (commands : List (String × CmdDef))
    (ropts : RoutingOptions) (args : List String) (a : String)
    (hcr : ropts.customRouter = none) :
    (findByAlias commands a = findByAliasEagerOnly commands a)
    ∧ (∀ (commandName : String) (restArgs : List String),
        resolvePhase commands ropts commandName restArgs args
          = resolveChainSpec commands ropts commandName restArgs args)
    ∧ (routeResolve commands ropts args
        = routeNormal commands ropts args (args.headD "help") args.tail
            (parseOptions args.tail))
    ∧ (alookup commands (args.headD "help") = none →
        findByAlias commands (args.headD "help") = none →
        ropts.defaultCommand = none →
        ropts.defaultHandler = true →
        routeResolve commands ropts args
          = .defaultHandlerRun args (parseOptions args))
    ∧ (alookup commands (args.headD "help") = none →
        findByAlias commands (args.headD "help") = none →
        ropts.defaultCommand = none →
        ropts.defaultHandler = false →
        routeResolve commands ropts args
          = .routeError ("Unknown command: " ++ args.headD "help")) := by
  refine ⟨findByAlias_eq_eagerOnly a commands, ?_, ?_, ?_, ?_⟩
  · intro commandName restArgs
    simp only [resolvePhase, resolveChainSpec,
      findByAlias_eq_eagerOnly commandName commands]
  · simp [routeResolve, hcr]
  · intro h1 h2 h3 h4
    simp only [List.headD_eq_head?] at h1 h2
    simp [routeResolve, hcr, routeNormal, resolvePhase, h1, h2, h3, h4]
  · intro h1 h2 h3 h4
    simp only [List.headD_eq_head?] at h1 h2
    simp [routeResolve, hcr, routeNormal, resolvePhase, h1, h2, h3, h4]


/-- Witness for C1: an alias resolved through the eager-only scan, the
default-handler fallback on the full original vector, and the
Command-Not-Found error. -/
theorem route_resolution_priority_witness :
    findByAlias [("ship", CmdDef.eager (.mk "ship" ["s"] [] [] none true))] "s"
      = findByAliasEagerOnly
          [("ship", CmdDef.eager (.mk "ship" ["s"] [] [] none true))] "s"
    ∧ routeResolve [("hi", CmdDef.eager (.mk "hi" [] [] [] none true))]
        { defaultHandler := true } ["nope", "--x"]
        = .defaultHandlerRun ["nope", "--x"] [("x", JVal.bool true)]
    ∧ routeResolve [("hi", CmdDef.eager (.mk "hi" [] [] [] none true))] {}
        ["nope"]
        = .routeError "Unknown command: nope" := by
  refine ⟨(route_resolution_priority
      [("ship", CmdDef.eager (.mk "ship" ["s"] [] [] none true))] {} [] "s"
      rfl).1, ?_, ?_⟩
  · exact ((route_resolution_priority
      [("hi", CmdDef.eager (.mk "hi" [] [] [] none true))]
      { defaultHandler := true } ["nope", "--x"] "s"
      rfl).2.2.2.1 rfl rfl rfl rfl).trans rfl
  · exact ((route_resolution_priority
      [("hi", CmdDef.eager (.mk "hi" [] [] [] none true))] {} ["nope"] "s"
      rfl).2.2.2.2 rfl rfl rfl rfl).trans rfl


/-- C3 counterexample: for `dns` with subcommands `add`, `list`, no handler,
and arguments `["dns","-v","add"]`, the remaining non-flag argument `add`
matches a declared subcommand, yet no descent occurs: the router inspects
only the *first* remaining argument (`-v`, a flag), so it proceeds to
`executeCommand` with the parent command, `add` unconsumed and the
subcommand path still `["dns"]`. -/
theorem subcommand_not_found_past_flag :
    routeResolve
        [("dns", CmdDef.eager (.mk "dns" [] [] []
          (some [("add", .mk "add" [] [] [] none true),
                 ("list", .mk "list" [] [] [] none true)]) false))]
        {} ["dns", "-v", "add"]
      = .execCmd
          (.mk "dns" [] [] []
            (some [("add", .mk "add" [] [] [] none true),
                   ("list", .mk "list" [] [] [] none true)]) false)
          "dns" ["-v", "add"] ["dns"] [("v", JVal.str "add")]
    ∧ startsDash "add" = false
    ∧ alookup [("add", Cmd.mk "add" [] [] [] none true),
               ("list", Cmd.mk "list" [] [] [] none true)] "add"
        = some (.mk "add" [] [] [] none true)
    ∧ Resolution.pathOf
        (routeResolve
          [("dns", CmdDef.eager (.mk "dns" [] [] []
            (some [("add", .mk "add" [] [] [] none true),
                   ("list", .mk "list" [] [] [] none true)]) false))]
          {} ["dns", "-v", "add"])
        = some ["dns"]
    ∧ (some ["dns"] : Option (List String)) ≠ some ["dns", "add"] := by
  refine ⟨rfl, rfl, rfl, rfl, by decide⟩

/-- C3 amended: when the resolved command declares subcommands, the router
inspects the *first* remaining argument only: if it does not begin with `-`
and matches a declared subcommand name, exactly one level of descent occurs,
consuming that argument; if it does not begin with `-`, matches no
subcommand, and the parent has no handler, routing fails with an error naming
it and listing the available subcommand names; and if no non-flag argument
remains and the parent has no handler, the help renderer is invoked for that
command (provided a help command is registered). -/
theorem subcommand_one_level_descent :
    (∀ (commands : List (String × CmdDef)) (c sub : Cmd) (name : String)
        (subs : List (String × Cmd)) (p : String) (rest2 : List String)
        (opts : List (String × JVal)),
      c.subcommands = some subs →
      startsDash p = false →
      alookup subs p = some sub →
      routeAfterResolve commands c name (p :: rest2) opts
        = routeFinish commands sub name rest2 [name, p] opts)
    ∧ (∀ (commands : List (String × CmdDef)) (c : Cmd) (name : String)
        (subs : List (String × Cmd)) (p : String) (rest2 : List String)
        (opts : List (String × JVal)),
      c.subcommands = some subs →
      startsDash p = false →
      alookup subs p = none →
      c.hasExec = false →
      routeAfterResolve commands c name (p :: rest2) opts
        = .routeError ("Unknown subcommand '" ++ p ++ "' for command '"
            ++ name ++ "'. Available subcommands: "
            ++ String.intercalate ", " (subs.map Prod.fst)))
    ∧ (∀ (commands : List (String × CmdDef)) (c : Cmd) (hd : CmdDef)
        (name : String) (remaining : List String)
        (opts : List (String × JVal)),
      c.subcommands.isSome = true →
      c.hasExec = false →
      (remaining.filter (fun a => !startsDash a)).isEmpty = true →
      alookup commands "help" = some hd →
      routeAfterResolve commands c name remaining opts
        = .helpShown name) := by
  refine ⟨?_, ?_, ?_⟩
  · intro commands c sub name subs p rest2 opts hsubs hdash hsub
    simp [routeAfterResolve, hsubs, hdash, hsub]
  · intro commands c name subs p rest2 opts hsubs hdash hsub hexec
    simp [routeAfterResolve, hsubs, hdash, hsub, hexec]
  · intro commands c helpDef name remaining opts hsome hexec hfilter hhelp
    cases hs : c.subcommands with
    | none => rw [hs] at hsome; cases hsome
    | some subs =>
      have hall : ∀ a ∈ remaining, startsDash a = true := by
        intro a ha
        by_contra hna
        have hmem : a ∈ remaining.filter (fun a => !startsDash a) :=
          List.mem_filter.mpr ⟨ha, by simp [hna]⟩
        rw [List.isEmpty_iff] at hfilter
        rw [hfilter] at hmem
        cases hmem
      cases remaining with
      | nil =>
        simp [routeAfterResolve, routeFinish, hs, hexec, hhelp]
      | cons p rest =>
        have hd : startsDash p = true := hall p (List.mem_cons_self p rest)
        have hrest : ∀ a ∈ rest, startsDash a = true :=
          fun a ha => hall a (List.mem_cons_of_mem p ha)
        simp [routeAfterResolve, routeFinish, hs, hexec, hd, hhelp]
        exact hrest


/-- Witness for the amended C3: descent into `dns add`, the unknown
`dns bogus` error listing `add, list`, and help for bare `dns`. -/
theorem subcommand_one_level_descent_witness :
    routeAfterResolve []
        (.mk "dns" [] [] []
          (some [("add", .mk "add" [] [] [] none true),
                 ("list", .mk "list" [] [] [] none true)]) false)
        "dns" ["add", "x.com"] []
      = .execCmd (.mk "add" [] [] [] none true) "dns" ["x.com"]
          ["dns", "add"] []
    ∧ routeAfterResolve []
        (.mk "dns" [] [] []
          (some [("add", .mk "add" [] [] [] none true),
                 ("list", .mk "list" [] [] [] none true)]) false)
        "dns" ["bogus"] []
      = .routeError
          "Unknown subcommand 'bogus' for command 'dns'. Available subcommands: add, list"
    ∧ routeAfterResolve [("help", CmdDef.eager (.mk "help" [] [] [] none true))]
        (.mk "dns" [] [] []
          (some [("add", .mk "add" [] [] [] none true),
                 ("list", .mk "list" [] [] [] none true)]) false)
        "dns" [] []
      = .helpShown "dns" := by
  obtain ⟨h1, h2, h3⟩ := subcommand_one_level_descent
  refine ⟨?_, ?_, ?_⟩
  · exact (h1 []
      (.mk "dns" [] [] []
        (some [("add", .mk "add" [] [] [] none true),
               ("list", .mk "list" [] [] [] none true)]) false)
      (.mk "add" [] [] [] none true) "dns"
      [("add", .mk "add" [] [] [] none true),
       ("list", .mk "list" [] [] [] none true)]
      "add" ["x.com"] [] rfl rfl rfl).trans rfl
  · exact (h2 []
      (.mk "dns" [] [] []
        (some [("add", .mk "add" [] [] [] none true),
               ("list", .mk "list" [] [] [] none true)]) false)
      "dns"
      [("add", .mk "add" [] [] [] none true),
       ("list", .mk "list" [] [] [] none true)]
      "bogus" [] [] rfl rfl rfl rfl).trans rfl
  · exact h3 [("help", CmdDef.eager (.mk "help" [] [] [] none true))]
      (.mk "dns" [] [] []
        (some [("add", .mk "add" [] [] [] none true),
               ("list", .mk "list" [] [] [] none true)]) false)
      (CmdDef.eager (.mk "help" [] [] [] none true)) "dns" [] []
      rfl rfl rfl rfl

end MerlinCLI
